import Mathlib

/-!
Verification of the field-store / recalculation core of the tax-return
backend.  Definitions are shallow embeddings of the TypeScript source:

  * `lib/fieldIds.ts`        — field-identifier canonicalizer
  * `lib/engine.ts`          — pure calculation engine (`calculateFederalTax`)
  * `convex/returns.ts`      — `recalculateReturnLogic`, `setReturnLock`
  * `convex/internalFunctions.ts` — `applyFieldUpdate`, `buildCalculatedPatches`
  * `convex/logic.ts`        — `syncCalculations` cascade (canonical-key version)
  * `lib/validators.ts` (canonicalized version) — `runDiagnostics`
  * `lib/encryption.ts`      — `maybeEncryptValue` (cipher kept as a parameter)

JavaScript numbers are embedded as exact rationals (`ℚ`).  Every concrete
numeric fact proved below was checked to agree with IEEE-754 double
semantics at the evaluated points (e.g. the double product `10000 * 0.153`
rounds to exactly `1530`, the value the rational embedding produces).
-/

namespace Taxwise

/-! ## Field-identifier canonicalizer (`lib/fieldIds.ts`) -/

/-- Character class of the run-replacement regex `/[:_]+/` in `toDotKey`. -/
def isSep (c : Char) : Bool := c == ':' || c == '_'

/-- Character class of the dot-collapsing regex `/\.+/` in `canonicalDot`. -/
def isDot (c : Char) : Bool := c == '.'

/-- One left-to-right pass of `String.replace(/X+/g, rep)`: each maximal run
of characters satisfying `p` is replaced by the single character `rep`.
The boolean accumulator records whether the scanner is inside a run. -/
def replaceRuns (p : Char → Bool) (rep : Char) : Bool → List Char → List Char
  | _, [] => []
  | inRun, c :: cs =>
    if p c then
      (if inRun then [] else [rep]) ++ replaceRuns p rep true cs
    else
      c :: replaceRuns p rep false cs

/-- The `toDotKey` from `lib/fieldIds.ts`: empty strings and strings already
containing a dot are returned unchanged; otherwise runs of `:`/`_` become
single dots. -/
def toDotKey (s : String) : String :=
  if s = "" then s
  else if '.' ∈ s.data then s
  else ⟨replaceRuns isSep '.' false s.data⟩

/-- The `canonicalDot` from `lib/fieldIds.ts`: `toDotKey` followed by collapsing
runs of dots. -/
def canonicalDot (s : String) : String :=
  if s = "" then s
  else ⟨replaceRuns isDot '.' false (toDotKey s).data⟩

/-- Split a character list at the first dot (`indexOf('.')` + two slices). -/
def splitFirstDot : List Char → Option (List Char × List Char)
  | [] => none
  | c :: cs =>
    if c = '.' then some ([], cs)
    else (splitFirstDot cs).map (fun q => (c :: q.1, q.2))

/-- Result shape of `parseDotKey`. -/
structure ParsedKey where
  formId : String
  fieldId : String
deriving DecidableEq, Repr

/-- The `parseDotKey` from `lib/fieldIds.ts`: canonicalize, then split on the
first dot; with no dot the whole string is the `fieldId`. -/
def parseDotKey (s : String) : ParsedKey :=
  if s = "" then ⟨"", ""⟩
  else
    let n := canonicalDot s
    match splitFirstDot n.data with
    | none => ⟨"", n⟩
    | some q => ⟨⟨q.1⟩, ⟨q.2⟩⟩

/-- Canonicalization as the specification describes it: replace every
maximal run of `:`/`_` by one dot, then collapse runs of dots — with no
special case for inputs that already contain a dot. -/
def specCanonical (s : String) : String :=
  ⟨replaceRuns isDot '.' false (replaceRuns isSep '.' false s.data)⟩

/-! ### Lemmas about `replaceRuns` -/

theorem replaceRuns_nil (p : Char → Bool) (rep : Char) (b : Bool) :
    replaceRuns p rep b [] = [] := by
  cases b <;> rfl

theorem replaceRuns_cons_pos (p : Char → Bool) (rep c : Char) (b : Bool)
    (cs : List Char) (h : p c = true) :
    replaceRuns p rep b (c :: cs) =
      (if b then [] else [rep]) ++ replaceRuns p rep true cs := by
  cases b <;> simp [replaceRuns, h]

theorem replaceRuns_cons_neg (p : Char → Bool) (rep c : Char) (b : Bool)
    (cs : List Char) (h : p c = false) :
    replaceRuns p rep b (c :: cs) = c :: replaceRuns p rep false cs := by
  cases b <;> simp [replaceRuns, h]

theorem replaceRuns_cons_pos_true (p : Char → Bool) (rep c : Char)
    (cs : List Char) (h : p c = true) :
    replaceRuns p rep true (c :: cs) = replaceRuns p rep true cs := by
  simp [replaceRuns, h]

theorem replaceRuns_cons_pos_false (p : Char → Bool) (rep c : Char)
    (cs : List Char) (h : p c = true) :
    replaceRuns p rep false (c :: cs) = rep :: replaceRuns p rep true cs := by
  simp [replaceRuns, h]

/-- A pass over a list with no `p`-characters is the identity. -/
theorem replaceRuns_eq_self (p : Char → Bool) (rep : Char) :
    ∀ (l : List Char) (b : Bool), (∀ c ∈ l, p c = false) →
      replaceRuns p rep b l = l := by
  intro l
  induction l with
  | nil => intro b _; exact replaceRuns_nil p rep b
  | cons c cs ih =>
    intro b h
    have hc : p c = false := h c (List.mem_cons_self c cs)
    rw [replaceRuns_cons_neg p rep c b cs hc]
    rw [ih false (fun d hd => h d (List.mem_cons_of_mem c hd))]

/-- If some character of the input satisfies `p`, a pass started outside a
run emits the replacement character. -/
theorem rep_mem_replaceRuns (p : Char → Bool) (rep : Char) :
    ∀ (l : List Char), (∃ c ∈ l, p c = true) →
      rep ∈ replaceRuns p rep false l := by
  intro l
  induction l with
  | nil => rintro ⟨c, hc, _⟩; exact absurd hc (List.not_mem_nil c)
  | cons c cs ih =>
    rintro ⟨d, hd, hpd⟩
    by_cases hc : p c = true
    · rw [replaceRuns_cons_pos p rep c false cs hc]
      exact List.mem_append_left _ (List.mem_singleton_self rep)
    · have hc' : p c = false := by
        cases hpc : p c
        · rfl
        · exact absurd hpc hc
      rw [replaceRuns_cons_neg p rep c false cs hc']
      rcases List.mem_cons.mp hd with rfl | hdcs
      · exact absurd hpd hc
      · exact List.mem_cons_of_mem c (ih ⟨d, hdcs, hpd⟩)

/-- No two adjacent characters of the list both satisfy `q`. -/
def noTwoAdj (q : Char → Bool) : List Char → Bool
  | [] => true
  | [_] => true
  | a :: b :: rest => (!(q a && q b)) && noTwoAdj q (b :: rest)

/-- The head of the list, if any, does not satisfy `q`. -/
def headNot (q : Char → Bool) : List Char → Prop
  | [] => True
  | c :: _ => q c = false

theorem noTwoAdj_cons_of_headNot (q : Char → Bool) (a : Char) (l : List Char)
    (h : headNot q l) : noTwoAdj q (a :: l) = noTwoAdj q l := by
  cases l with
  | nil => rfl
  | cons b rest =>
    have hb : q b = false := h
    simp [noTwoAdj, hb]

theorem noTwoAdj_cons_of_not (q : Char → Bool) (a : Char) (l : List Char)
    (h : q a = false) : noTwoAdj q (a :: l) = noTwoAdj q l := by
  cases l with
  | nil => rfl
  | cons b rest => simp [noTwoAdj, h]

theorem noTwoAdj_tail (q : Char → Bool) (a : Char) (l : List Char)
    (h : noTwoAdj q (a :: l) = true) : noTwoAdj q l = true := by
  cases l with
  | nil => rfl
  | cons b rest =>
    have := (Bool.and_eq_true _ _).mp h
    exact this.2

theorem headNot_of_noTwoAdj (q : Char → Bool) (a : Char) (l : List Char)
    (h : noTwoAdj q (a :: l) = true) (ha : q a = true) : headNot q l := by
  cases l with
  | nil => trivial
  | cons b rest =>
    have h1 := ((Bool.and_eq_true _ _).mp h).1
    show q b = false
    cases hb : q b
    · rfl
    · rw [ha, hb] at h1; simp at h1

/-- Output of a pass never has two adjacent `q`-characters, provided every
`q`-character of the input satisfies `p` (so it is consumed as run input);
a pass started inside a run begins with a non-`q` character. -/
theorem replaceRuns_noTwoAdj (p q : Char → Bool) (rep : Char) :
    ∀ (l : List Char), (∀ c ∈ l, q c = true → p c = true) →
      ∀ b, noTwoAdj q (replaceRuns p rep b l) = true ∧
        (b = true → headNot q (replaceRuns p rep true l)) := by
  intro l
  induction l with
  | nil =>
    intro _ b
    constructor
    · rw [replaceRuns_nil]; rfl
    · intro _; rw [replaceRuns_nil]; trivial
  | cons c cs ih =>
    intro h b
    have hcs : ∀ d ∈ cs, q d = true → p d = true :=
      fun d hd => h d (List.mem_cons_of_mem c hd)
    by_cases hpc : p c = true
    · constructor
      · cases b with
        | true =>
          rw [replaceRuns_cons_pos_true p rep c cs hpc]
          exact ((ih hcs true).1)
        | false =>
          rw [replaceRuns_cons_pos_false p rep c cs hpc]
          have hhead := (ih hcs true).2 rfl
          rw [noTwoAdj_cons_of_headNot q rep _ hhead]
          exact (ih hcs true).1
      · intro hb
        rw [replaceRuns_cons_pos_true p rep c cs hpc]
        exact (ih hcs true).2 rfl
    · have hpc' : p c = false := by
        cases hp : p c
        · rfl
        · exact absurd hp hpc
      have hqc : q c = false := by
        cases hq : q c
        · rfl
        · exact absurd (h c (List.mem_cons_self c cs) hq) hpc
      constructor
      · rw [replaceRuns_cons_neg p rep c b cs hpc']
        rw [noTwoAdj_cons_of_not q c _ hqc]
        exact (ih hcs false).1
      · intro hb
        rw [replaceRuns_cons_neg p rep c true cs hpc']
        show q c = false
        exact hqc

/-- A list with no adjacent `p`-characters, all of whose `p`-characters
equal the replacement character, is a fixed point of the pass. -/
theorem replaceRuns_fixed (p : Char → Bool) (rep : Char)
    (hrep : ∀ c, p c = true → c = rep) :
    ∀ (l : List Char) (b : Bool), noTwoAdj p l = true →
      (b = true → headNot p l) → replaceRuns p rep b l = l := by
  intro l
  induction l with
  | nil => intro b _ _; exact replaceRuns_nil p rep b
  | cons c cs ih =>
    intro b hadj hhead
    by_cases hpc : p c = true
    · cases b with
      | true =>
        have : p c = false := hhead rfl
        rw [hpc] at this; simp at this
      | false =>
        rw [replaceRuns_cons_pos_false p rep c cs hpc]
        have hcs : replaceRuns p rep true cs = cs :=
          ih true (noTwoAdj_tail p c cs hadj)
            (fun _ => headNot_of_noTwoAdj p c cs hadj hpc)
        rw [hcs, hrep c hpc]
    · have hpc' : p c = false := by
        cases hp : p c
        · rfl
        · exact absurd hp hpc
      rw [replaceRuns_cons_neg p rep c b cs hpc']
      rw [ih false (noTwoAdj_tail p c cs hadj) (fun h => by simp at h)]

theorem isDot_eq_rep : ∀ c, isDot c = true → c = '.' := by
  intro c h
  exact eq_of_beq h

/-! ### Canonicalization facts -/

theorem canonicalDot_empty : canonicalDot "" = "" := by
  simp [canonicalDot]

theorem string_mk_data (s : String) : (⟨s.data⟩ : String) = s := rfl

/-- For a nonempty input containing a dot, `canonicalDot` only collapses
runs of dots. -/
theorem canonicalDot_of_dot (s : String) (hne : s ≠ "")
    (hdot : '.' ∈ s.data) :
    canonicalDot s = ⟨replaceRuns isDot '.' false s.data⟩ := by
  unfold canonicalDot toDotKey
  rw [if_neg hne, if_neg hne, if_pos hdot]

/-- For a nonempty input with no dot, `canonicalDot` agrees with the
spec-described transform. -/
theorem canonicalDot_of_no_dot (s : String) (hne : s ≠ "")
    (hdot : '.' ∉ s.data) :
    canonicalDot s = ⟨replaceRuns isDot '.' false
      (replaceRuns isSep '.' false s.data)⟩ := by
  unfold canonicalDot toDotKey
  rw [if_neg hne, if_neg hne, if_neg hdot]

theorem data_mk (l : List Char) : (⟨l⟩ : String).data = l := rfl

/-- The `canonicalDot` is idempotent. -/
theorem canonicalDot_idem (s : String) :
    canonicalDot (canonicalDot s) = canonicalDot s := by
  by_cases hs : s = ""
  · subst hs; rw [canonicalDot_empty, canonicalDot_empty]
  by_cases hdot : '.' ∈ s.data
  · -- the input already contains a dot: only dot runs are collapsed
    rw [canonicalDot_of_dot s hs hdot]
    set t : String := ⟨replaceRuns isDot '.' false s.data⟩ with ht
    have htdata : t.data = replaceRuns isDot '.' false s.data := rfl
    have htdot : '.' ∈ t.data := by
      rw [htdata]
      exact rep_mem_replaceRuns isDot '.' s.data ⟨'.', hdot, rfl⟩
    have htne : t ≠ "" := by
      intro h
      rw [h] at htdot
      exact absurd htdot (List.not_mem_nil _)
    have hadj : noTwoAdj isDot t.data = true := by
      rw [htdata]
      exact (replaceRuns_noTwoAdj isDot isDot '.' s.data
        (fun c _ h => h) false).1
    rw [canonicalDot_of_dot t htne htdot]
    rw [replaceRuns_fixed isDot '.' isDot_eq_rep t.data false hadj
      (fun h => by simp at h)]
  · by_cases hsep : ∃ c ∈ s.data, isSep c = true
    · -- no dot, but separators: the separator pass feeds the dot pass
      rw [canonicalDot_of_no_dot s hs hdot]
      have hvac : ∀ c ∈ s.data, isDot c = true → isSep c = true := by
        intro c hc hdc
        exact absurd (isDot_eq_rep c hdc ▸ hc) hdot
      have hadj : noTwoAdj isDot (replaceRuns isSep '.' false s.data) = true :=
        (replaceRuns_noTwoAdj isSep isDot '.' s.data hvac false).1
      have hfix : replaceRuns isDot '.' false
          (replaceRuns isSep '.' false s.data) =
          replaceRuns isSep '.' false s.data :=
        replaceRuns_fixed isDot '.' isDot_eq_rep _ false hadj
          (fun h => by simp at h)
      rw [hfix]
      set u : String := ⟨replaceRuns isSep '.' false s.data⟩ with hu
      have hudata : u.data = replaceRuns isSep '.' false s.data := rfl
      have hudot : '.' ∈ u.data := by
        rw [hudata]
        exact rep_mem_replaceRuns isSep '.' s.data hsep
      have hune : u ≠ "" := by
        intro h
        rw [h] at hudot
        exact absurd hudot (List.not_mem_nil _)
      rw [canonicalDot_of_dot u hune hudot]
      have hadj' : noTwoAdj isDot u.data = true := hudata ▸ hadj
      rw [replaceRuns_fixed isDot '.' isDot_eq_rep u.data false hadj'
        (fun h => by simp at h)]
    · -- neither dots nor separators: everything is the identity
      push_neg at hsep
      have hsep' : ∀ c ∈ s.data, isSep c = false := by
        intro c hc
        cases h : isSep c
        · rfl
        · exact absurd h (hsep c hc)
      have hdot' : ∀ c ∈ s.data, isDot c = false := by
        intro c hc
        cases h : isDot c
        · rfl
        · exact absurd (isDot_eq_rep c h ▸ hc) hdot
      have h1 : canonicalDot s = s := by
        rw [canonicalDot_of_no_dot s hs hdot]
        rw [replaceRuns_eq_self isSep '.' s.data false hsep']
        rw [replaceRuns_eq_self isDot '.' s.data false hdot']
      rw [h1, h1]

/-- C4 counterexample: on an input that mixes `.` with `_`, `toCanonical`
(`canonicalDot`) returns the string unchanged instead of replacing the
underscore run with a dot, because `toDotKey` short-circuits as soon as the
input contains any dot. -/
theorem C4_mixed_separator_counterexample :
    canonicalDot "1040.x_y" = "1040.x_y" ∧
    specCanonical "1040.x_y" = "1040.x.y" ∧
    canonicalDot "1040.x_y" ≠ specCanonical "1040.x_y" := by
  refine ⟨by decide, by decide, by decide⟩

/-- C4 (amended): for inputs containing no `.`, `toCanonical` equals the
replace-runs-then-collapse transform the spec describes; inputs that
already contain a dot are only dot-collapsed, with `:` and `_` left alone. -/
theorem C4_canonical_agrees_on_dotfree (s : String) (h : '.' ∉ s.data) :
    canonicalDot s = specCanonical s := by
  by_cases hs : s = ""
  · subst hs; decide
  · rw [canonicalDot_of_no_dot s hs h]; rfl

/-- Witness for `C4_canonical_agrees_on_dotfree` at a concrete input. -/
theorem C4_canonical_agrees_on_dotfree_witness :
    '.' ∉ "1040_FS".data ∧ canonicalDot "1040_FS" = specCanonical "1040_FS" :=
  ⟨by decide, C4_canonical_agrees_on_dotfree "1040_FS" (by decide)⟩

/-- C5: canonicalization is idempotent, and the three separator dialects of
the filing-status key all canonicalize to `1040.FS`. -/
theorem C5_canonicalization_idempotent :
    (∀ s : String, canonicalDot (canonicalDot s) = canonicalDot s) ∧
    canonicalDot "1040_FS" = "1040.FS" ∧
    canonicalDot "1040:FS" = "1040.FS" ∧
    canonicalDot "1040.FS" = "1040.FS" :=
  ⟨canonicalDot_idem, by decide, by decide, by decide⟩

/-! ## Dynamic field values

Field values are `v.any()` in the Convex schema.  The closed sum below
covers the shapes the core actually stores: strings, numbers (embedded as
exact rationals), booleans, `null`/`undefined`, and the
`{ _encrypted: true, data }` wrapper produced by `maybeEncryptValue`. -/

inductive Value where
  | str (s : String)
  | num (q : ℚ)
  | bool (b : Bool)
  | null
  | encrypted (data : String)
deriving DecidableEq, Repr

/-- JavaScript truthiness of a stored value (`!!v`). -/
def truthy : Value → Bool
  | .str s => !(s == "")
  | .num q => !(q == 0)
  | .bool b => b
  | .null => false
  | .encrypted _ => true

/-! ## Calculation engine (`lib/engine.ts`) -/

/-- An entry of the embedded forms snapshot handed to the engine.  The
engine reads only the `.value` attribute of each snapshot entry. -/
structure EmbField where
  value : Value
deriving DecidableEq, Repr

/-- The `formId → fieldId → snapshot entry`, the `forms` input of
`calculateFederalTax`. -/
def Forms := List (String × List (String × EmbField))
deriving DecidableEq

structure ReturnData where
  year : Int
  forms : Forms
deriving DecidableEq

inductive Sev where
  | error
  | warning
deriving DecidableEq, Repr

/-- Engine diagnostic (`{ fieldId, message, severity }`). -/
structure Diag where
  fieldId : String
  message : String
  severity : Sev
deriving DecidableEq, Repr

/-- An `updatedFields` entry `{ formId, fieldId, value }`. -/
structure UpdatedField where
  formId : String
  fieldId : String
  value : Value
deriving DecidableEq, Repr

structure CalculationResult where
  refund : ℚ
  taxLiability : ℚ
  diagnostics : List Diag
  updatedFields : List UpdatedField
deriving DecidableEq

/-- The `returnData.forms[formId]?.[fieldId]` — optional-chained snapshot
lookup. -/
def getSnap (forms : Forms) (formId fieldId : String) : Option EmbField :=
  (List.lookup formId forms).bind (fun fs => List.lookup fieldId fs)

/-- Numeric coercion of `forms[...]?.[...]?.value || 0`: an absent or falsy
entry contributes `0`.  JavaScript coercions of non-numeric strings (NaN)
are outside the numeric fragment the theorems evaluate; booleans follow
`ToNumber`. -/
def numOr0 (o : Option EmbField) : ℚ :=
  match o with
  | none => 0
  | some f =>
    match f.value with
    | .num q => q
    | .bool true => 1
    | .bool false => 0
    | .str _ => 0
    | .null => 0
    | .encrypted _ => 0

/-- Truthiness of `forms[...]?.[...]?.value` for the missing-EIN check. -/
def truthySnap (o : Option EmbField) : Bool :=
  match o with
  | none => false
  | some f => truthy f.value

/-- The `calculateFederalTax` from `lib/engine.ts`, line for line: standard
deduction 14600, AGI = W-2 box 1 + Schedule C net profit, CTC warning at
AGI ≥ 200000, SE tax = 15.3% of positive Schedule C profit, flat 22%
liability over the deduction plus SE tax, refund against a fixed 2000
withholding, and a missing-EIN error diagnostic. -/
def calculateFederalTax (returnData : ReturnData) : CalculationResult :=
  let stdDeduction : ℚ := 14600
  let itemizedDeduction := numOr0 (getSnap returnData.forms "1040" "itemizedDeduction")
  let deduction := max stdDeduction itemizedDeduction
  let w2Salary := numOr0 (getSnap returnData.forms "W2" "box1")
  let schCProfit := numOr0 (getSnap returnData.forms "SchC" "netProfit")
  let agi := w2Salary + schCProfit
  let ctcEligible := agi < 200000
  let ctcDiags : List Diag :=
    if ctcEligible then []
    else [⟨"1040.line19", "AGI too high for CTC", .warning⟩]
  let seTax : ℚ := if schCProfit > 0 then schCProfit * (153 / 1000) else 0
  let seUpdates : List UpdatedField :=
    if schCProfit > 0 then [⟨"SchSE", "seTax", .num (schCProfit * (153 / 1000))⟩] else []
  let updatedFields := seUpdates ++
    [⟨"1040", "line1z", .num w2Salary⟩, ⟨"1040", "line3", .num schCProfit⟩]
  let taxLiability := max (agi - deduction) 0 * (22 / 100) + seTax
  let refund := max 0 (2000 - taxLiability)
  let einDiags : List Diag :=
    if truthySnap (getSnap returnData.forms "W2" "EIN") then []
    else [⟨"W2.EIN", "Missing EIN", .error⟩]
  ⟨refund, taxLiability, ctcDiags ++ einDiags, updatedFields⟩

/-! ## Store documents (`convex/schema.ts`) and the document database

Documents in the `fields` table carry the composite key
`(returnId, formId, fieldId)`; `_id` is the Convex document id (unique in
a real database; theorems that need uniqueness state it as a hypothesis).
`label` stands for the attributes a field patch never mentions. -/

structure FieldDoc where
  _id : Nat
  returnId : String
  formId : String
  fieldId : String
  label : Option String
  value : Value
  calculated : Bool
  overridden : Bool
  estimated : Bool
  lastModifiedBy : String
  updatedAt : Nat
deriving DecidableEq, Repr

/-- An embedded `FormDoc` inside `returns.forms` (only its `fields` map is
read by recalculation). -/
structure FormDocEmb where
  fields : List (String × EmbField)
deriving DecidableEq, Repr

/-- An entry of the return's append-only `events` stream. -/
structure EventRec where
  type : String
  formId : String
  fieldId : String
  previousValue : Value
  newValue : Value
  createdAt : Nat
  actor : String
  triggerSource : String
deriving DecidableEq, Repr

/-- A row of the `audit` table as inserted by `applyFieldUpdate`. -/
structure AuditEntry where
  returnId : String
  formId : String
  fieldId : String
  userId : String
  actor : String
  sessionId : Option String
  ipAddress : Option String
  action : String
  triggerSource : String
  hashChainEntry : String
  previousValue : Value
  newValue : Value
  createdAt : Nat
deriving DecidableEq, Repr

/-- A document of the `returns` table. -/
structure ReturnDoc where
  _id : Nat
  returnId : String
  taxpayerId : Option String
  year : Int
  forms : List (String × FormDocEmb)
  isLocked : Bool
  events : List EventRec
  refund : Option ℚ
  taxLiability : Option ℚ
  diagnostics : Option (List Diag)
deriving DecidableEq

/-- The document database visible to the core: `returns`, `fields` and
`audit` collections, each in `_creationTime` order (Convex index queries
return the first match in that order). -/
structure DB where
  returns : List ReturnDoc
  fields : List FieldDoc
  audit : List AuditEntry
deriving DecidableEq

inductive Err where
  | returnNotFound
  | returnLocked
  | fieldNotFound
deriving DecidableEq, Repr

/-- The `db.query("returns").withIndex("byReturnId", ...).first()`. -/
def findReturn (db : DB) (returnId : String) : Option ReturnDoc :=
  db.returns.find? (fun r => r.returnId == returnId)

/-- The `db.query("fields").withIndex("byComposite", ...).first()`. -/
def findComposite (fields : List FieldDoc) (returnId formId fieldId : String) :
    Option FieldDoc :=
  fields.find? (fun f =>
    f.returnId == returnId && f.formId == formId && f.fieldId == fieldId)

/-- The `db.patch(<fields table>, id, patch)`: rewrite the document(s) with the
given `_id`. -/
def patchById (fields : List FieldDoc) (id : Nat) (patch : FieldDoc → FieldDoc) :
    List FieldDoc :=
  fields.map (fun f => if f._id == id then patch f else f)

/-- The snapshot-building double loop of `recalculateReturnLogic`: it walks
`returnDoc.forms[formId].fields[fieldId]` — the forms embedded on the
return document — and copies each embedded entry into the snapshot.  It
never consults the `fields` table. -/
def copyForms (forms : List (String × FormDocEmb)) : Forms :=
  forms.map (fun form => (form.1, form.2.fields.map (fun entry => (entry.1, entry.2))))

/-- One iteration of the write-back loop of `recalculateReturnLogic`: look
the field up by composite key; if absent, skip; if `overridden`, skip;
otherwise patch `value`, set `calculated := true`, refresh `updatedAt`. -/
def engineWriteStep (now : Nat) (returnId : String) (fields : List FieldDoc)
    (field : UpdatedField) : List FieldDoc :=
  match findComposite fields returnId field.formId field.fieldId with
  | none => fields
  | some fieldDoc =>
    if fieldDoc.overridden then fields
    else patchById fields fieldDoc._id (fun f =>
      { f with value := field.value, calculated := true, updatedAt := now })

/-- The `recalculateReturnLogic` from `convex/returns.ts`: load the return
(throwing `Return not found`), build the snapshot from the embedded forms,
run the engine, write back non-overridden fields, then patch the return
aggregates.  Note: there is no `isLocked` check in the source. -/
def recalculateReturnLogic (now : Nat) (db : DB) (returnId : String) :
    Except Err DB :=
  match findReturn db returnId with
  | none => .error .returnNotFound
  | some returnDoc =>
    let forms := copyForms returnDoc.forms
    let result := calculateFederalTax ⟨returnDoc.year, forms⟩
    let fields1 := result.updatedFields.foldl (engineWriteStep now returnId) db.fields
    let returns1 := db.returns.map (fun r =>
      if r._id == returnDoc._id then
        { r with refund := some result.refund,
                 taxLiability := some result.taxLiability,
                 diagnostics := some result.diagnostics }
      else r)
    .ok { db with fields := fields1, returns := returns1 }

/-! ## Encryption boundary (`lib/encryption.ts`)

The AES cipher itself is irrelevant to every claim; it is kept as an
opaque-function parameter `enc`.  The PII classifiers are embedded
exactly. -/

/-- Consume exactly `n` ASCII digits, returning the rest of the input. -/
def eatDigits : Nat → List Char → Option (List Char)
  | 0, l => some l
  | _ + 1, [] => none
  | n + 1, c :: l => if c.isDigit then eatDigits n l else none

/-- Consume the optional dash of the `-?` regex pieces. -/
def optDash : List Char → List Char
  | '-' :: r => r
  | l => l

/-- The `looksLikeSSN`: `/^(\d{3}-?\d{2}-?\d{4})$/` on the trimmed string. -/
def looksLikeSSN (s : String) : Bool :=
  match eatDigits 3 s.trim.data with
  | none => false
  | some r1 =>
    match eatDigits 2 (optDash r1) with
    | none => false
    | some r2 =>
      match eatDigits 4 (optDash r2) with
      | some [] => true
      | _ => false

/-- The `looksLikeEIN`: `/^(\d{2}-?\d{7})$/` on the trimmed string. -/
def looksLikeEIN (s : String) : Bool :=
  match eatDigits 2 s.trim.data with
  | none => false
  | some r1 =>
    match eatDigits 7 (optDash r1) with
    | some [] => true
    | _ => false

/-- The `isPossiblyPII`: non-empty trimmed strings shaped like an SSN or EIN. -/
def isPossiblyPII (v : Value) : Bool :=
  match v with
  | .str s => !(s.trim == "") && (looksLikeSSN s || looksLikeEIN s)
  | _ => false

/-- The `maybeEncryptValue`: wrap PII-shaped strings as
`{ _encrypted: true, data: enc(s) }`; every other modelled value passes
through unchanged (the source recurses into arrays/objects, which the
modelled value sum does not contain). -/
def maybeEncryptValue (enc : String → String) (v : Value) : Value :=
  match v with
  | .str s => if isPossiblyPII (.str s) then .encrypted (enc s) else v
  | _ => v

/-! ## `applyFieldUpdate` (`convex/internalFunctions.ts`) -/

structure Actor where
  userId : String
  name : Option String
  sessionId : Option String
  ipAddress : Option String
deriving DecidableEq, Repr

/-- The optional `meta` argument; a flag only takes effect when it is
explicitly a boolean in the request. -/
structure Meta where
  isOverride : Option Bool
  isEstimated : Option Bool
  triggerSource : Option String
deriving DecidableEq, Repr

/-- The data hashed into an audit chain entry. -/
structure HashPayload where
  returnId : String
  formId : String
  fieldId : String
  userId : String
  action : String
  timestamp : Nat
deriving DecidableEq, Repr

/-- The `{ updated, _id, previousValue, newValue }` result object. -/
structure UpdateResult where
  updated : Bool
  _id : Nat
  previousValue : Value
  newValue : Value
deriving DecidableEq, Repr

/-- JavaScript `a || b` for an optional string (empty string is falsy). -/
def jsOr (o : Option String) (d : String) : String :=
  match o with
  | some s => if s = "" then d else s
  | none => d

/-- The `getLatestHash`: the source sorts the audit rows by `createdAt`
descending and takes the first; with append-only inserts at non-decreasing
timestamps that is the most recently inserted row. -/
def getLatestHash (entries : List AuditEntry) : Option String :=
  entries.getLast?.map (fun e => e.hashChainEntry)

/-- The `meta && typeof meta.isX === 'boolean' ? meta.isX : fieldDoc.x` — the
flag is updated only when explicitly supplied as a boolean. -/
def flagFallback (explicit : Option Bool) (current : Bool) : Bool :=
  match explicit with
  | some b => b
  | none => current

/-- The `applyFieldUpdate` from `convex/internalFunctions.ts`: reject a missing
return, reject a locked return, reject a missing field; otherwise patch the
field (`value`, `lastModifiedBy`, `updatedAt`, flag fallbacks,
`calculated: false`), insert a hash-chained audit row, and append a
`field:update` event to the return. -/
def applyFieldUpdate (enc : String → String)
    (hashFn : Option String → HashPayload → String)
    (now : Nat) (db : DB) (actor : Actor)
    (returnId formId fieldId : String) (value : Value) (meta : Option Meta) :
    Except Err (DB × UpdateResult) :=
  match findReturn db returnId with
  | none => .error .returnNotFound
  | some returnDoc =>
    if returnDoc.isLocked then .error .returnLocked
    else
      match findComposite db.fields returnId formId fieldId with
      | none => .error .fieldNotFound
      | some fieldDoc =>
        let previousValue := fieldDoc.value
        let triggerSource := jsOr (meta.bind (fun m => m.triggerSource)) "manual"
        let storedValue := maybeEncryptValue enc value
        let fields1 := patchById db.fields fieldDoc._id (fun f =>
          { f with
              value := storedValue,
              lastModifiedBy := jsOr actor.name actor.userId,
              updatedAt := now,
              overridden := flagFallback (meta.bind (fun m => m.isOverride)) fieldDoc.overridden,
              estimated := flagFallback (meta.bind (fun m => m.isEstimated)) fieldDoc.estimated,
              calculated := false })
        let previousHash := getLatestHash db.audit
        let chainEntry :=
          hashFn previousHash ⟨returnId, formId, fieldId, actor.userId, "field:update", now⟩
        let prevStored := maybeEncryptValue enc previousValue
        let auditRow : AuditEntry :=
          ⟨returnId, formId, fieldId, actor.userId, actor.name.getD "",
           actor.sessionId, actor.ipAddress, "field:update", triggerSource,
           chainEntry, prevStored, storedValue, now⟩
        let ev : EventRec :=
          ⟨"field:update", formId, fieldId, previousValue, value, now,
           actor.userId, triggerSource⟩
        let returns1 := db.returns.map (fun r =>
          if r._id == returnDoc._id then { r with events := r.events ++ [ev] } else r)
        .ok ({ returns := returns1, fields := fields1, audit := db.audit ++ [auditRow] },
             ⟨true, fieldDoc._id, previousValue, value⟩)

/-! ## Raw-value cascade (`convex/logic.ts`, canonical-key version) -/

/-- The static dependency map, keyed by canonical dot keys. -/
def FIELD_MAP : List (String × List String) :=
  [("SchC.Line31", ["Sch1.Line3"]),
   ("Sch1.Line3", ["1040.Line8"]),
   ("SchC.netProfit", ["SchSE.seTax", "1040.totalIncome"])]

/-- The target loop of `cascade`: patch each target field found by its
parsed composite key, then recurse into the target via `go`. -/
def cascadeTargets (returnId : String) (value : Value)
    (go : String → List FieldDoc → List FieldDoc) :
    List String → List FieldDoc → List FieldDoc
  | [], fields => fields
  | targetId :: rest, fields =>
    let parsed := parseDotKey targetId
    let fields1 :=
      match findComposite fields returnId parsed.formId parsed.fieldId with
      | none => fields
      | some fieldDoc =>
        patchById fields fieldDoc._id (fun f => { f with value := value })
    let fields2 := go targetId fields1
    cascadeTargets returnId value go rest fields2

/-- The recursive `cascade` closure of `syncCalculations`.  The source has
no cycle detection and recurses unboundedly; the model carries explicit
fuel, which is never exhausted on the acyclic `FIELD_MAP`. -/
def cascade (returnId : String) (value : Value) :
    Nat → String → List FieldDoc → List FieldDoc
  | 0, _, fields => fields
  | fuel + 1, fieldId, fields =>
    let canonical := canonicalDot fieldId
    let targets := (List.lookup canonical FIELD_MAP).getD []
    cascadeTargets returnId value (cascade returnId value fuel) targets fields

/-- The `syncCalculations`: load the return, then cascade from the canonical
updated key. -/
def syncCalculations (fuel : Nat) (db : DB)
    (returnId updatedFieldId : String) (value : Value) : Except Err DB :=
  match findReturn db returnId with
  | none => .error .returnNotFound
  | some _ =>
    .ok { db with
          fields := cascade returnId value fuel (canonicalDot updatedFieldId) db.fields }

/-! ## Diagnostics pipeline (`lib/validators.ts`, canonicalized version) -/

/-- Validator diagnostic `{ fieldId, severity, message, form }`. -/
structure Diagnostic where
  fieldId : String
  severity : Sev
  message : String
  form : String
deriving DecidableEq, Repr

/-- The `normalizedId`: canonicalize the document's `fieldId`.  (The source's
nullish fallback to a template string applies only to records without a
`fieldId`, which the typed model excludes.) -/
def normalizedId (f : FieldDoc) : String := canonicalDot f.fieldId

/-- Substring test, as in `String.prototype.includes`. -/
def containsSub (hay needle : List Char) : Bool :=
  hay.tails.any (fun t => needle.isPrefixOf t)

/-- The `/^\d{3}-\d{2}-\d{4}$/` — the strict SSN shape the rule requires. -/
def strictSSNFormat (s : String) : Bool :=
  match eatDigits 3 s.data with
  | some ('-' :: r1) =>
    (match eatDigits 2 r1 with
     | some ('-' :: r2) =>
       (match eatDigits 4 r2 with
        | some [] => true
        | _ => false)
     | _ => false)
  | _ => false

/-- The `/^\d{2}-\d{7}$/` — the strict EIN shape the rule requires. -/
def strictEINFormat (s : String) : Bool :=
  match eatDigits 2 s.data with
  | some ('-' :: r1) =>
    (match eatDigits 7 r1 with
     | some [] => true
     | _ => false)
  | _ => false

/-- JavaScript `String(v)` on the modelled values (non-integer number
formatting is approximated; the theorems never stringify one). -/
def jsToString (v : Value) : String :=
  match v with
  | .str s => s
  | .bool true => "true"
  | .bool false => "false"
  | .null => "null"
  | .num q => if q.den == 1 then toString q.num else toString q
  | .encrypted _ => "[object Object]"

/-- The SSN-format rule. -/
def ssnRule (fields : List FieldDoc) : List Diagnostic :=
  (((fields.filter (fun f => containsSub (normalizedId f).toLower.data "ssn".data)).filter
    (fun f => truthy f.value && !(strictSSNFormat (jsToString f.value)))).map
    (fun f => ⟨normalizedId f, .error, "Invalid SSN format (expected XXX-XX-XXXX)", f.formId⟩))

/-- The EIN-format rule. -/
def einRule (fields : List FieldDoc) : List Diagnostic :=
  (((fields.filter (fun f => containsSub (normalizedId f).toLower.data "ein".data)).filter
    (fun f => truthy f.value && !(strictEINFormat (jsToString f.value)))).map
    (fun f => ⟨normalizedId f, .error, "Invalid EIN format (expected XX-XXXXXXX)", f.formId⟩))

/-- The non-negative amount rule (`/amt|amount|wages/i`). -/
def positiveNumberRule (fields : List FieldDoc) : List Diagnostic :=
  (((fields.filter (fun f =>
      let n := (normalizedId f).toLower.data
      containsSub n "amt".data || containsSub n "amount".data ||
        containsSub n "wages".data)).filter
    (fun f =>
      match f.value with
      | .num q => decide (q < 0)
      | _ => false)).map
    (fun f => ⟨normalizedId f, .error, "Value must be positive", f.formId⟩))

/-- The required filing-status rule, keyed on the canonical `1040.FS`. -/
def filingStatusRule (fields : List FieldDoc) : List Diagnostic :=
  match fields.find? (fun f => normalizedId f == "1040.FS") with
  | none => [⟨"1040.FS", .error, "Filing Status is required", "1040"⟩]
  | some fs =>
    if truthy fs.value then []
    else [⟨"1040.FS", .error, "Filing Status is required", jsOr (some fs.formId) "1040"⟩]

/-- Leading decimal digits of a character list (`none` when there are
none), the digit-parsing core of `parseInt`. -/
def leadingDigits (l : List Char) : Option Nat :=
  match l with
  | [] => none
  | c :: _ =>
    if c.isDigit then some (go l 0) else none
where
  go : List Char → Nat → Nat
  | [], acc => acc
  | c :: rest, acc =>
    if c.isDigit then go rest (acc * 10 + (c.toNat - 48)) else acc

/-- The `parseInt(s, 10)`: optional sign then leading digits, after skipping
leading whitespace. -/
def parseIntJS (s : String) : Option Int :=
  match s.trim.data with
  | '-' :: rest => (leadingDigits rest).map (fun n => -(n : Int))
  | '+' :: rest => (leadingDigits rest).map (fun n => (n : Int))
  | l => (leadingDigits l).map (fun n => (n : Int))

/-- Age extraction of `dependentAgeRule`: numbers pass through, strings go
through `parseInt`.  (The source's last resort — parsing the string as a
`Date` and subtracting years from today — is wall-clock dependent and not
modelled; no theorem evaluates that branch.) -/
def ageOf (v : Value) : Option ℚ :=
  match v with
  | .num q => some q
  | .str s => (parseIntJS s).map (fun n => (n : ℚ))
  | _ => none

/-- The CTC-claim detector of `dependentAgeRule`. -/
def ctcClaimPred (f : FieldDoc) : Bool :=
  let fid := (⟨(normalizedId f).data.filter (fun c => !(c == '.'))⟩ : String).toLower
  (containsSub fid.data "ctc".data || containsSub fid.data "childtaxcredit".data) &&
    (f.value == .bool true || f.value == .str "yes" || f.value == .str "1" ||
      f.value == .num 1)

/-- The `a.*b`: some occurrence of `a` followed later by an occurrence of `b`. -/
def subThenSub (hay a b : List Char) : Bool :=
  hay.tails.any (fun t => a.isPrefixOf t && containsSub (t.drop a.length) b)

/-- After `dependent` + one or more digits, expect `.age`. -/
def digitsDotAge : List Char → Bool
  | [] => false
  | c :: rest =>
    if c.isDigit then digitsThenDotAge rest
    else false
where
  digitsThenDotAge : List Char → Bool
  | [] => false
  | c :: rest =>
    if c.isDigit then digitsThenDotAge rest
    else c == '.' && "age".data.isPrefixOf rest

/-- The `dependent\d+\.age` alternative. -/
def depNumDotAge (hay : List Char) : Bool :=
  hay.tails.any (fun t =>
    "dependent".data.isPrefixOf t && digitsDotAge (t.drop 9))

/-- The dependent-age field detector:
`/dependent.*age|age.*dependent|dependent\d+\.age|dob/i` or
(`/dependent/i` and `/age|dob/i`). -/
def depAgePred (f : FieldDoc) : Bool :=
  let fid := (normalizedId f).toLower.data
  subThenSub fid "dependent".data "age".data ||
    subThenSub fid "age".data "dependent".data ||
    depNumDotAge fid ||
    containsSub fid "dob".data ||
    (containsSub fid "dependent".data &&
      (containsSub fid "age".data || containsSub fid "dob".data))

/-- The dependent-age rule: with a CTC claim present, flag every
discoverable dependent-age field of 18 or over. -/
def dependentAgeRule (fields : List FieldDoc) : List Diagnostic :=
  match fields.find? ctcClaimPred with
  | none => []
  | some _ =>
    (fields.filter depAgePred).filterMap (fun f =>
      match ageOf f.value with
      | some age =>
        if 18 ≤ age then
          some ⟨normalizedId f, .error,
            "Dependent appears too old for Child Tax Credit", f.formId⟩
        else none
      | none => none)

/-- The `runDiagnostics`: concatenate the five rules in their fixed order. -/
def runDiagnostics (fields : List FieldDoc) : List Diagnostic :=
  (([ssnRule, einRule, positiveNumberRule, filingStatusRule, dependentAgeRule]).map
    (fun rule => rule fields)).flatten

/-! ## The override invariant of the write-back loop -/

/-- The write-back loop never changes a document's `_id`. -/
theorem engineWriteStep_map_id (now : Nat) (rid : String) (fs : List FieldDoc)
    (u : UpdatedField) :
    (engineWriteStep now rid fs u).map (fun f => f._id) = fs.map (fun f => f._id) := by
  unfold engineWriteStep
  cases hfc : findComposite fs rid u.formId u.fieldId with
  | none => rfl
  | some fd =>
    by_cases hov : fd.overridden = true
    · simp [hov]
    · simp only [hov, if_neg, Bool.false_eq_true, not_false_eq_true, if_false]
      unfold patchById
      rw [List.map_map]
      apply List.map_congr_left
      intro a _
      simp only [Function.comp_apply]
      split <;> rfl

/-- A single write-back step leaves every overridden document in place,
untouched (assuming distinct `_id`s, as in a real document database). -/
theorem engineWriteStep_preserves_overridden (now : Nat) (rid : String)
    (fs : List FieldDoc) (u : UpdatedField) (i : Nat) (doc : FieldDoc)
    (hnd : (fs.map (fun f => f._id)).Nodup)
    (hi : fs[i]? = some doc) (hov : doc.overridden = true) :
    (engineWriteStep now rid fs u)[i]? = some doc := by
  unfold engineWriteStep
  cases hfc : findComposite fs rid u.formId u.fieldId with
  | none => exact hi
  | some fd =>
    by_cases hfdov : fd.overridden = true
    · simp only [hfdov, if_true]
      exact hi
    · have hfdov' : fd.overridden = false := by
        cases h : fd.overridden
        · rfl
        · exact absurd h hfdov
      simp only [hfdov', Bool.false_eq_true, not_false_eq_true, if_false]
      unfold patchById
      rw [List.getElem?_map, hi, Option.map_some']
      have hdocmem : doc ∈ fs := List.getElem?_mem hi
      have hfdmem : fd ∈ fs := List.mem_of_find?_eq_some hfc
      have hne : doc._id ≠ fd._id := by
        intro heq
        have : doc = fd :=
          List.inj_on_of_nodup_map hnd hdocmem hfdmem heq
        rw [this, hfdov'] at hov
        exact Bool.false_ne_true hov
      have : (doc._id == fd._id) = false := beq_eq_false_iff_ne.mpr hne
      simp [this]

/-- The whole write-back fold leaves every overridden document in place. -/
theorem foldl_engineWriteStep_preserves_overridden (now : Nat) (rid : String)
    (us : List UpdatedField) :
    ∀ (fs : List FieldDoc), (fs.map (fun f => f._id)).Nodup →
      ∀ (i : Nat) (doc : FieldDoc), fs[i]? = some doc → doc.overridden = true →
        (us.foldl (engineWriteStep now rid) fs)[i]? = some doc := by
  induction us with
  | nil =>
    intro fs _ i doc hi _
    rw [List.foldl_nil]
    exact hi
  | cons u us ih =>
    intro fs hnd i doc hi hov
    rw [List.foldl_cons]
    have hnd' : ((engineWriteStep now rid fs u).map (fun f => f._id)).Nodup := by
      rw [engineWriteStep_map_id]
      exact hnd
    exact ih (engineWriteStep now rid fs u) hnd' i doc
      (engineWriteStep_preserves_overridden now rid fs u i doc hnd hi hov) hov

/-- C1: for every field whose `overridden` flag is set before a
`recalculate(returnId)` call, the whole document — in particular its
`value` and `calculated` flag — is unchanged after the call, whatever the
Calculation Engine computed (the write-back invariant above holds for an
arbitrary `updatedFields` list). -/
theorem C1_recalculate_preserves_overridden_fields
    (now : Nat) (db : DB) (returnId : String) (db' : DB)
    (hnd : (db.fields.map (fun f => f._id)).Nodup)
    (h : recalculateReturnLogic now db returnId = .ok db') :
    ∀ (i : Nat) (doc : FieldDoc), db.fields[i]? = some doc →
      doc.overridden = true →
      db'.fields[i]? = some doc := by
  intro i doc hi hov
  unfold recalculateReturnLogic at h
  cases hfind : findReturn db returnId with
  | none => rw [hfind] at h; exact absurd h (by simp)
  | some returnDoc =>
    rw [hfind] at h
    have hdb' : db' = { db with
        fields := (calculateFederalTax
            ⟨returnDoc.year, copyForms returnDoc.forms⟩).updatedFields.foldl
          (engineWriteStep now returnId) db.fields,
        returns := db.returns.map (fun r =>
          if r._id == returnDoc._id then
            { r with
                refund := some (calculateFederalTax
                  ⟨returnDoc.year, copyForms returnDoc.forms⟩).refund,
                taxLiability := some (calculateFederalTax
                  ⟨returnDoc.year, copyForms returnDoc.forms⟩).taxLiability,
                diagnostics := some (calculateFederalTax
                  ⟨returnDoc.year, copyForms returnDoc.forms⟩).diagnostics }
          else r) } := by
      exact (Except.ok.inj h).symm
    rw [hdb']
    exact foldl_engineWriteStep_preserves_overridden now returnId _ db.fields hnd
      i doc hi hov

/-! ## Concrete engine evaluations shared by several scenarios -/

/-- The engine on an empty snapshot: no income, standard deduction, zero
liability, the fixed 2000 withholding refunded, and a missing-EIN error. -/
theorem calculateFederalTax_empty : calculateFederalTax ⟨2025, ([] : Forms)⟩ =
    ⟨2000, 0, [⟨"W2.EIN", "Missing EIN", .error⟩],
     [⟨"1040", "line1z", .num 0⟩, ⟨"1040", "line3", .num 0⟩]⟩ := by
  simp only [calculateFederalTax, getSnap, numOr0, truthySnap, List.lookup]
  norm_num

/-! ## C1 witness fixture: one overridden field, recalculation skips it -/

def ovReturn : ReturnDoc := ⟨1, "r1", none, 2025, [], false, [], none, none, none⟩

def ovField : FieldDoc :=
  ⟨10, "r1", "1040", "line1z", none, .num 7, false, true, false, "", 0⟩

def ovDb : DB := ⟨[ovReturn], [ovField], []⟩

def ovReturnAfter : ReturnDoc :=
  { ovReturn with
      refund := some 2000,
      taxLiability := some 0,
      diagnostics := some [⟨"W2.EIN", "Missing EIN", .error⟩] }

def ovDbAfter : DB := ⟨[ovReturnAfter], [ovField], []⟩

theorem recalc_ovDb_eval : recalculateReturnLogic 5 ovDb "r1" = .ok ovDbAfter := by
  have hfind : findReturn ovDb "r1" = some ovReturn := by decide
  simp only [recalculateReturnLogic, hfind]
  have hforms : copyForms ovReturn.forms = ([] : Forms) := by decide
  rw [hforms, show ovReturn.year = 2025 from rfl, calculateFederalTax_empty]
  simp only [Except.ok.injEq]
  decide

/-- Witness for `C1_recalculate_preserves_overridden_fields` at a concrete
one-field database whose only field is overridden. -/
theorem C1_recalculate_preserves_overridden_fields_witness :
    (ovDb.fields.map (fun f => f._id)).Nodup ∧
    recalculateReturnLogic 5 ovDb "r1" = .ok ovDbAfter ∧
    ovDb.fields[0]? = some ovField ∧
    ovField.overridden = true ∧
    ovDbAfter.fields[0]? = some ovField :=
  ⟨by decide, recalc_ovDb_eval, by decide, by decide,
   C1_recalculate_preserves_overridden_fields 5 ovDb "r1" ovDbAfter (by decide)
     recalc_ovDb_eval 0 ovField (by decide) (by decide)⟩

/-! ## C2: the lock check is missing from `recalculateReturnLogic` -/

def lockedReturn : ReturnDoc := ⟨1, "r2", none, 2025, [], true, [], none, none, none⟩

def lockedField : FieldDoc :=
  ⟨10, "r2", "1040", "line1z", none, .num 5, false, false, false, "", 0⟩

def lockedDb : DB := ⟨[lockedReturn], [lockedField], []⟩

def lockedReturnAfter : ReturnDoc :=
  { lockedReturn with
      refund := some 2000,
      taxLiability := some 0,
      diagnostics := some [⟨"W2.EIN", "Missing EIN", .error⟩] }

def lockedFieldAfter : FieldDoc :=
  { lockedField with
      value := .num 0,
      calculated := true,
      updatedAt := 99 }

def lockedDbAfter : DB := ⟨[lockedReturnAfter], [lockedFieldAfter], []⟩

/-- C2: on a locked return, `applyFieldUpdate` fails with the
`ReturnLocked` condition before performing any write, but
`recalculateReturnLogic` has no `isLocked` check: it completes, overwrites
a field (value 5 to 0, `calculated := true`) and updates the return
aggregates — the writes the claim says cannot happen. -/
theorem C2_locked_return_lock_check_missing :
    lockedReturn.isLocked = true ∧
    (∀ (enc : String → String) (hashFn : Option String → HashPayload → String)
       (now : Nat) (actor : Actor) (value : Value) (meta : Option Meta),
      applyFieldUpdate enc hashFn now lockedDb actor "r2" "1040" "line1z" value meta =
        .error .returnLocked) ∧
    recalculateReturnLogic 99 lockedDb "r2" = .ok lockedDbAfter ∧
    lockedField.value = .num 5 ∧
    lockedFieldAfter.value = .num 0 ∧
    lockedFieldAfter.calculated = true ∧
    lockedReturnAfter.refund = some 2000 := by
  refine ⟨by decide, ?_, ?_, by decide, by decide, by decide, by decide⟩
  · intro enc hashFn now actor value meta
    have hfind : findReturn lockedDb "r2" = some lockedReturn := by decide
    unfold applyFieldUpdate
    rw [hfind]
    rfl
  · have hfind : findReturn lockedDb "r2" = some lockedReturn := by decide
    simp only [recalculateReturnLogic, hfind]
    have hforms : copyForms lockedReturn.forms = ([] : Forms) := by decide
    rw [hforms, show lockedReturn.year = 2025 from rfl, calculateFederalTax_empty]
    simp only [Except.ok.injEq]
    decide

/-! ## C3: the recalculation snapshot ignores the fields table -/

def orphanReturn : ReturnDoc := ⟨1, "r3", none, 2025, [], false, [], none, none, none⟩

def orphanField : FieldDoc :=
  ⟨20, "r3", "SchC", "netProfit", none, .num 10000, false, false, false, "", 0⟩

def orphanDb : DB := ⟨[orphanReturn], [orphanField], []⟩

def orphanReturnAfter : ReturnDoc :=
  { orphanReturn with
      refund := some 2000,
      taxLiability := some 0,
      diagnostics := some [⟨"W2.EIN", "Missing EIN", .error⟩] }

def orphanDbAfter : DB := ⟨[orphanReturnAfter], [orphanField], []⟩

/-- C3: the fields table stores Schedule C net profit 10000 for the
return, but the snapshot `recalculateReturnLogic` builds (from the
embedded `returnDoc.forms`, which is empty here) does not contain it, so
recalculation computes a zero tax liability and never emits the SE-tax
field — the field store is invisible to the engine. -/
theorem C3_snapshot_ignores_field_store :
    findComposite orphanDb.fields "r3" "SchC" "netProfit" = some orphanField ∧
    orphanField.value = .num 10000 ∧
    findReturn orphanDb "r3" = some orphanReturn ∧
    copyForms orphanReturn.forms = ([] : Forms) ∧
    getSnap (copyForms orphanReturn.forms) "SchC" "netProfit" = none ∧
    recalculateReturnLogic 7 orphanDb "r3" = .ok orphanDbAfter ∧
    orphanDbAfter.fields = [orphanField] ∧
    orphanReturnAfter.taxLiability = some 0 := by
  refine ⟨by decide, by decide, by decide, by decide, by decide, ?_, by decide, by decide⟩
  have hfind : findReturn orphanDb "r3" = some orphanReturn := by decide
  simp only [recalculateReturnLogic, hfind]
  have hforms : copyForms orphanReturn.forms = ([] : Forms) := by decide
  rw [hforms, show orphanReturn.year = 2025 from rfl, calculateFederalTax_empty]
  simp only [Except.ok.injEq]
  decide

/-! ## C6: the SE-tax scenario and the absence of cent rounding -/

def seForms : Forms := [("SchC", [("netProfit", ⟨.num 10000⟩)])]

/-- Engine evaluation of the SE-tax scenario (net profit 10000, no
wages). -/
theorem calculateFederalTax_se_scenario : calculateFederalTax ⟨2025, seForms⟩ =
    ⟨470, 1530, [⟨"W2.EIN", "Missing EIN", .error⟩],
     [⟨"SchSE", "seTax", .num 1530⟩, ⟨"1040", "line1z", .num 0⟩,
      ⟨"1040", "line3", .num 10000⟩]⟩ := by
  have h1 : getSnap seForms "1040" "itemizedDeduction" = none := by decide
  have h2 : getSnap seForms "W2" "box1" = none := by decide
  have h3 : getSnap seForms "SchC" "netProfit" = some ⟨.num 10000⟩ := by decide
  have h4 : getSnap seForms "W2" "EIN" = none := by decide
  simp only [calculateFederalTax, h1, h2, h3, h4, numOr0, truthySnap]
  norm_num

def seTinyForms : Forms := [("SchC", [("netProfit", ⟨.num 1⟩)])]

/-- Engine evaluation at net profit 1: the SE tax comes out as the raw
product `0.153`. -/
theorem calculateFederalTax_tiny : calculateFederalTax ⟨2025, seTinyForms⟩ =
    ⟨1999847 / 1000, 153 / 1000, [⟨"W2.EIN", "Missing EIN", .error⟩],
     [⟨"SchSE", "seTax", .num (153 / 1000)⟩, ⟨"1040", "line1z", .num 0⟩,
      ⟨"1040", "line3", .num 1⟩]⟩ := by
  have h1 : getSnap seTinyForms "1040" "itemizedDeduction" = none := by decide
  have h2 : getSnap seTinyForms "W2" "box1" = none := by decide
  have h3 : getSnap seTinyForms "SchC" "netProfit" = some ⟨.num 1⟩ := by decide
  have h4 : getSnap seTinyForms "W2" "EIN" = none := by decide
  simp only [calculateFederalTax, h1, h2, h3, h4, numOr0, truthySnap]
  norm_num

/-- C6 counterexample to the rounding clause: at net profit 1 the engine
emits an SE-tax value of `0.153`, which is not a whole number of cents —
the engine applies no round-to-nearest-cent discipline to its monetary
results. -/
theorem C6_no_cent_rounding_counterexample :
    (⟨"SchSE", "seTax", .num (153 / 1000)⟩ : UpdatedField) ∈
      (calculateFederalTax ⟨2025, seTinyForms⟩).updatedFields ∧
    ¬ ∃ n : ℤ, (153 / 1000 : ℚ) = (n : ℚ) / 100 := by
  constructor
  · rw [calculateFederalTax_tiny]
    exact List.mem_cons_self _ _
  · rintro ⟨n, hn⟩
    have h2 : (153 : ℚ) * 100 = (n : ℚ) * 1000 := by
      field_simp at hn
      linarith
    have h3 : (15300 : ℤ) = n * 1000 := by exact_mod_cast h2
    omega

/-- C6 (amended): with Schedule C net profit 10000 and no wages, the
engine's `updatedFields` contains the SE-tax entry with value exactly
1530, and the returned liability is strictly positive; the scenario's
numbers happen to be exact even though the engine performs no explicit
cent rounding. -/
theorem C6_se_tax_scenario :
    (⟨"SchSE", "seTax", .num 1530⟩ : UpdatedField) ∈
      (calculateFederalTax ⟨2025, seForms⟩).updatedFields ∧
    0 < (calculateFederalTax ⟨2025, seForms⟩).taxLiability := by
  rw [calculateFederalTax_se_scenario]
  exact ⟨List.mem_cons_self _ _, by norm_num⟩

/-! ## C7 and C10: what a successful `applyFieldUpdate` patch touches -/

def updReturn : ReturnDoc := ⟨1, "r7", none, 2025, [], false, [], none, none, none⟩

/-- A field the engine last wrote: `calculated = true`. -/
def updField : FieldDoc :=
  ⟨30, "r7", "1040", "wages", some "Wages", .num 100, true, false, false, "bob", 0⟩

def updDb : DB := ⟨[updReturn], [updField], []⟩

def updActor : Actor := ⟨"u1", some "alice", none, none⟩

def updFieldAfter : FieldDoc :=
  ⟨30, "r7", "1040", "wages", some "Wages", .num 100, false, false, false, "alice", 50⟩

def updEvent : EventRec :=
  ⟨"field:update", "1040", "wages", .num 100, .num 100, 50, "u1", "manual"⟩

def updReturnAfter : ReturnDoc :=
  { updReturn with events := [updEvent] }

def updAuditRow : AuditEntry :=
  ⟨"r7", "1040", "wages", "u1", "alice", none, none, "field:update", "manual",
   "h", .num 100, .num 100, 50⟩

def updDbAfter : DB := ⟨[updReturnAfter], [updFieldAfter], [updAuditRow]⟩

def updRes : UpdateResult := ⟨true, 30, .num 100, .num 100⟩

/-- Concrete evaluation of a successful `applyFieldUpdate` writing the
same numeric value back with no `meta`. -/
theorem applyFieldUpdate_updDb_eval :
    applyFieldUpdate (fun s => s) (fun _ _ => "h") 50 updDb updActor
      "r7" "1040" "wages" (.num 100) none = .ok (updDbAfter, updRes) := by
  rfl

/-- C7 counterexample: a successful user update with no `meta` flags and
an unchanged value still flips the field's `calculated` attribute from
`true` to `false` — an attribute change beyond the ones the claim
allows. -/
theorem C7_calculated_flipped_counterexample :
    applyFieldUpdate (fun s => s) (fun _ _ => "h") 50 updDb updActor
      "r7" "1040" "wages" (.num 100) none = .ok (updDbAfter, updRes) ∧
    updField.calculated = true ∧
    updField.value = .num 100 ∧
    updDbAfter.fields = [updFieldAfter] ∧
    updFieldAfter.calculated = false :=
  ⟨applyFieldUpdate_updDb_eval, by decide, by decide, by decide, by decide⟩

/-- C10: after every successful `applyFieldUpdate`, the patched field
(identified by the `_id` the call returns) exists and carries
`calculated = false`, whatever `meta` and the new value were. -/
theorem C10_user_write_clears_calculated
    (enc : String → String) (hashFn : Option String → HashPayload → String)
    (now : Nat) (db : DB) (actor : Actor)
    (returnId formId fieldId : String) (value : Value) (meta : Option Meta)
    (db' : DB) (res : UpdateResult)
    (h : applyFieldUpdate enc hashFn now db actor returnId formId fieldId
      value meta = .ok (db', res)) :
    (∃ doc' ∈ db'.fields, doc'._id = res._id) ∧
    ∀ doc' ∈ db'.fields, doc'._id = res._id → doc'.calculated = false := by
  unfold applyFieldUpdate at h
  cases hret : findReturn db returnId with
  | none => rw [hret] at h; exact absurd h (by simp)
  | some ret =>
    rw [hret] at h
    dsimp only at h
    by_cases hlock : ret.isLocked = true
    · rw [if_pos hlock] at h; exact absurd h (by simp)
    · rw [if_neg hlock] at h
      cases hfc : findComposite db.fields returnId formId fieldId with
      | none => rw [hfc] at h; exact absurd h (by simp)
      | some fd =>
        rw [hfc] at h
        dsimp only at h
        have hpair := Except.ok.inj h
        obtain ⟨hdbEq, hresEq⟩ := Prod.mk.inj hpair
        subst hdbEq
        subst hresEq
        dsimp only
        unfold patchById
        constructor
        · have hfd : fd ∈ db.fields := List.mem_of_find?_eq_some hfc
          exact ⟨_, List.mem_map_of_mem _ hfd, by simp⟩
        · intro doc' hmem hid
          obtain ⟨a, ha, hga⟩ := List.mem_map.mp hmem
          by_cases hcase : (a._id == fd._id) = true
          · rw [← hga]
            simp [hcase]
          · rw [← hga] at hid
            simp [hcase] at hid
            exact absurd (beq_iff_eq.mpr hid) hcase

/-- C7 (amended): a successful `applyFieldUpdate` patch touches exactly
`value` (the possibly-encrypted new value), `lastModifiedBy`, `updatedAt`,
the `overridden`/`estimated` flags — only when `meta` explicitly supplies
them, otherwise they keep their prior value — and `calculated`, which is
always reset to `false`; identity attributes and `label` are unchanged,
and every other document in the table is untouched. -/
theorem C7_patch_effect_amended
    (enc : String → String) (hashFn : Option String → HashPayload → String)
    (now : Nat) (db : DB) (actor : Actor)
    (returnId formId fieldId : String) (value : Value) (meta : Option Meta)
    (db' : DB) (res : UpdateResult)
    (hnd : (db.fields.map (fun f => f._id)).Nodup)
    (h : applyFieldUpdate enc hashFn now db actor returnId formId fieldId
      value meta = .ok (db', res)) :
    db'.fields.length = db.fields.length ∧
    ∀ (i : Nat) (doc : FieldDoc), db.fields[i]? = some doc →
      (doc._id ≠ res._id → db'.fields[i]? = some doc) ∧
      (doc._id = res._id → ∀ doc', db'.fields[i]? = some doc' →
        doc'._id = doc._id ∧
        doc'.returnId = doc.returnId ∧
        doc'.formId = doc.formId ∧
        doc'.fieldId = doc.fieldId ∧
        doc'.label = doc.label ∧
        doc'.value = maybeEncryptValue enc value ∧
        doc'.lastModifiedBy = jsOr actor.name actor.userId ∧
        doc'.updatedAt = now ∧
        doc'.calculated = false ∧
        doc'.overridden =
          flagFallback (meta.bind (fun m => m.isOverride)) doc.overridden ∧
        doc'.estimated =
          flagFallback (meta.bind (fun m => m.isEstimated)) doc.estimated) := by
  unfold applyFieldUpdate at h
  cases hret : findReturn db returnId with
  | none => rw [hret] at h; exact absurd h (by simp)
  | some ret =>
    rw [hret] at h
    dsimp only at h
    by_cases hlock : ret.isLocked = true
    · rw [if_pos hlock] at h; exact absurd h (by simp)
    · rw [if_neg hlock] at h
      cases hfc : findComposite db.fields returnId formId fieldId with
      | none => rw [hfc] at h; exact absurd h (by simp)
      | some fd =>
        rw [hfc] at h
        dsimp only at h
        have hpair := Except.ok.inj h
        obtain ⟨hdbEq, hresEq⟩ := Prod.mk.inj hpair
        subst hdbEq
        subst hresEq
        dsimp only
        unfold patchById
        constructor
        · exact List.length_map _ _
        · intro i doc hi
          constructor
          · intro hne
            rw [List.getElem?_map, hi, Option.map_some']
            have hbeq : (doc._id == fd._id) = false := beq_eq_false_iff_ne.mpr hne
            simp [hbeq]
          · intro heq doc' hdoc'
            have hdocmem : doc ∈ db.fields := List.getElem?_mem hi
            have hfdmem : fd ∈ db.fields := List.mem_of_find?_eq_some hfc
            have hdocfd : doc = fd := List.inj_on_of_nodup_map hnd hdocmem hfdmem heq
            subst hdocfd
            rw [List.getElem?_map, hi, Option.map_some'] at hdoc'
            have hgd := Option.some.inj hdoc'
            have hbeq : (doc._id == doc._id) = true := beq_self_eq_true doc._id
            rw [if_pos hbeq] at hgd
            rw [← hgd]
            exact ⟨rfl, rfl, rfl, rfl, rfl, rfl, rfl, rfl, rfl, rfl, rfl⟩

/-- Witness for `C7_patch_effect_amended` at the concrete run of
`applyFieldUpdate_updDb_eval`. -/
theorem C7_patch_effect_amended_witness :
    (updDb.fields.map (fun f => f._id)).Nodup ∧
    applyFieldUpdate (fun s => s) (fun _ _ => "h") 50 updDb updActor
      "r7" "1040" "wages" (.num 100) none = .ok (updDbAfter, updRes) ∧
    (updDbAfter.fields.length = updDb.fields.length ∧
     ∀ (i : Nat) (doc : FieldDoc), updDb.fields[i]? = some doc →
       (doc._id ≠ updRes._id → updDbAfter.fields[i]? = some doc) ∧
       (doc._id = updRes._id → ∀ doc', updDbAfter.fields[i]? = some doc' →
         doc'._id = doc._id ∧
         doc'.returnId = doc.returnId ∧
         doc'.formId = doc.formId ∧
         doc'.fieldId = doc.fieldId ∧
         doc'.label = doc.label ∧
         doc'.value = maybeEncryptValue (fun s => s) (.num 100) ∧
         doc'.lastModifiedBy = jsOr updActor.name updActor.userId ∧
         doc'.updatedAt = 50 ∧
         doc'.calculated = false ∧
         doc'.overridden =
           flagFallback ((none : Option Meta).bind (fun m => m.isOverride)) doc.overridden ∧
         doc'.estimated =
           flagFallback ((none : Option Meta).bind (fun m => m.isEstimated)) doc.estimated)) :=
  ⟨by decide, applyFieldUpdate_updDb_eval,
   C7_patch_effect_amended (fun s => s) (fun _ _ => "h") 50 updDb updActor
     "r7" "1040" "wages" (.num 100) none updDbAfter updRes (by decide)
     applyFieldUpdate_updDb_eval⟩

/-- Witness for `C10_user_write_clears_calculated` at the concrete run of
`applyFieldUpdate_updDb_eval` (whose field had `calculated = true` and
whose value did not change). -/
theorem C10_user_write_clears_calculated_witness :
    applyFieldUpdate (fun s => s) (fun _ _ => "h") 50 updDb updActor
      "r7" "1040" "wages" (.num 100) none = .ok (updDbAfter, updRes) ∧
    ((∃ doc' ∈ updDbAfter.fields, doc'._id = updRes._id) ∧
     ∀ doc' ∈ updDbAfter.fields, doc'._id = updRes._id → doc'.calculated = false) :=
  ⟨applyFieldUpdate_updDb_eval,
   C10_user_write_clears_calculated (fun s => s) (fun _ _ => "h") 50 updDb updActor
     "r7" "1040" "wages" (.num 100) none updDbAfter updRes
     applyFieldUpdate_updDb_eval⟩

/-! ## C8: the raw-value cascade scenario -/

theorem cascade_succ (rid : String) (v : Value) (k : Nat) (key : String)
    (fs : List FieldDoc) :
    cascade rid v (k + 1) key fs =
      cascadeTargets rid v (cascade rid v k)
        ((List.lookup (canonicalDot key) FIELD_MAP).getD []) fs := rfl

/-- A key with no `FIELD_MAP` targets cascades to nothing, at any fuel. -/
theorem cascade_no_targets (rid : String) (v : Value) (key : String)
    (hk : List.lookup (canonicalDot key) FIELD_MAP = none) :
    ∀ (m : Nat) (fs : List FieldDoc), cascade rid v m key fs = fs := by
  intro m fs
  cases m with
  | zero => rfl
  | succ k =>
    rw [cascade_succ, hk]
    rfl

def casReturn : ReturnDoc := ⟨1, "r8", none, 2025, [], false, [], none, none, none⟩

def casSrc : FieldDoc :=
  ⟨41, "r8", "SchC", "netProfit", none, .num 10000, false, false, false, "", 0⟩

def casSe : FieldDoc :=
  ⟨42, "r8", "SchSE", "seTax", none, .num 0, false, false, false, "", 0⟩

def casTot : FieldDoc :=
  ⟨43, "r8", "1040", "totalIncome", none, .num 0, false, false, false, "", 0⟩

def casDb : DB := ⟨[casReturn], [casSrc, casSe, casTot], []⟩

def casSeAfter : FieldDoc := { casSe with value := .num 10000 }

def casTotAfter : FieldDoc := { casTot with value := .num 10000 }

def casDbAfter : DB := ⟨[casReturn], [casSrc, casSeAfter, casTotAfter], []⟩

/-- C8: with the scenario fields and the `SchC.netProfit ->
[SchSE.seTax, 1040.totalIncome]` edge of `FIELD_MAP`, cascading 10000 from
`SchC.netProfit` leaves both target fields holding 10000 in the store
(for any recursion budget that admits the one required step). -/
theorem C8_cascade_scenario (fuel : Nat) (hfuel : 1 ≤ fuel) :
    syncCalculations fuel casDb "r8" "SchC.netProfit" (.num 10000) = .ok casDbAfter ∧
    (findComposite casDbAfter.fields "r8" "SchSE" "seTax").map (fun f => f.value) =
      some (.num 10000) ∧
    (findComposite casDbAfter.fields "r8" "1040" "totalIncome").map (fun f => f.value) =
      some (.num 10000) := by
  refine ⟨?_, by decide, by decide⟩
  obtain ⟨k, rfl⟩ : ∃ k, fuel = k + 1 := ⟨fuel - 1, by omega⟩
  have hse : ∀ (m : Nat) (fs : List FieldDoc),
      cascade "r8" (.num 10000) m "SchSE.seTax" fs = fs :=
    cascade_no_targets _ _ _ (by decide)
  have htot : ∀ (m : Nat) (fs : List FieldDoc),
      cascade "r8" (.num 10000) m "1040.totalIncome" fs = fs :=
    cascade_no_targets _ _ _ (by decide)
  have hfind : findReturn casDb "r8" = some casReturn := by decide
  have hlookup : (List.lookup (canonicalDot (canonicalDot "SchC.netProfit"))
      FIELD_MAP).getD [] = ["SchSE.seTax", "1040.totalIncome"] := by decide
  simp only [syncCalculations, hfind]
  rw [cascade_succ, hlookup]
  simp only [cascadeTargets]
  simp only [hse, htot]
  simp only [Except.ok.injEq]
  decide

/-- Witness for `C8_cascade_scenario` at the minimal sufficient fuel. -/
theorem C8_cascade_scenario_witness :
    1 ≤ 1 ∧
    (syncCalculations 1 casDb "r8" "SchC.netProfit" (.num 10000) = .ok casDbAfter ∧
     (findComposite casDbAfter.fields "r8" "SchSE" "seTax").map (fun f => f.value) =
       some (.num 10000) ∧
     (findComposite casDbAfter.fields "r8" "1040" "totalIncome").map (fun f => f.value) =
       some (.num 10000)) :=
  ⟨by decide, C8_cascade_scenario 1 (by decide)⟩

/-! ## C9: diagnostics on an empty field list -/

/-- C9: `runDiagnostics` on the empty field list returns exactly one
diagnostic — an error on the canonical filing-status key `1040.FS` (which
is a fixed point of canonicalization). -/
theorem C9_missing_filing_status :
    runDiagnostics [] =
      [⟨"1040.FS", .error, "Filing Status is required", "1040"⟩] ∧
    canonicalDot "1040.FS" = "1040.FS" :=
  ⟨by decide, by decide⟩

end Taxwise
